import Mathlib

/-!
# PrivateBin instance checker (`parser/main.go`)

A shallow embedding of the directory parser, the per-instance classifier and
the result aggregation loop of `parser/main.go`, with the properties of the
program stated and proved over it.

Modelling conventions.

* Go strings are Lean `String`s; every string operation is written on the
  underlying list of characters (`String.data`).
* `float64` is `F64`: the two infinities, NaN, and the finite values carried
  as rationals.  The program only ever compares an uptime with the constant
  `99.0`, and comparison follows IEEE 754 (every comparison with NaN is false).
* Go's `error` is `GoError` (the message); a nil error is `none`.
* `goquery` documents are represented by the results of the selector queries
  the program runs on them (in document order).
* The network and the standard-library float parser are inputs: `Net` carries
  the result of the HTTP exchange for each URL, and `parseDirectory` takes
  `strconv.ParseFloat` as an argument.
-/

namespace PrivateBin

/-! ## Strings -/

/-- Go's `unicode.IsSpace`: the Latin-1 white space characters and the code
points with the Unicode `White_Space` property. -/
def isSpace (c : Char) : Bool :=
  let n := c.toNat
  n == 0x09 || n == 0x0A || n == 0x0B || n == 0x0C || n == 0x0D || n == 0x20 ||
  n == 0x85 || n == 0xA0 || n == 0x1680 || (0x2000 ≤ n && n ≤ 0x200A) ||
  n == 0x2028 || n == 0x2029 || n == 0x202F || n == 0x205F || n == 0x3000

/-- Characters left after removing the trailing run that satisfies `p`. -/
def dropTrailing (p : Char → Bool) (cs : List Char) : List Char :=
  (cs.reverse.dropWhile p).reverse

/-- Go's `strings.TrimSpace` on a list of characters. -/
def trimSpaceChars (cs : List Char) : List Char :=
  dropTrailing isSpace (cs.dropWhile isSpace)

/-- Go's `strings.TrimSpace`. -/
def trimSpace (s : String) : String :=
  ⟨trimSpaceChars s.data⟩

/-- Go's `strings.TrimPrefix`. -/
def trimPrefix (s pre : String) : String :=
  if pre.data.isPrefixOf s.data then ⟨s.data.drop pre.data.length⟩ else s

/-- Scanning loop of `strings.ReplaceAll` for a non-empty `old`: `skip` counts
the characters of a match that are still to be passed over. -/
def replaceScan (old new : List Char) : Nat → List Char → List Char
  | _, [] => []
  | skip + 1, _ :: rest => replaceScan old new skip rest
  | 0, c :: rest =>
    if old.isPrefixOf (c :: rest) then new ++ replaceScan old new (old.length - 1) rest
    else c :: replaceScan old new 0 rest

/-- Go's `strings.ReplaceAll`: every non-overlapping occurrence of `old`, left
to right, becomes `new`; an empty `old` matches before every character and at
the end. -/
def replaceAll (s old new : String) : String :=
  if old.data = [] then ⟨new.data ++ s.data.flatMap (fun c => c :: new.data)⟩
  else ⟨replaceScan old.data new.data 0 s.data⟩

/-- Go's `strings.Contains` on lists of characters. -/
def containsChars (text sub : List Char) : Bool :=
  text.tails.any (fun t => sub.isPrefixOf t)

/-- Go's `strings.Contains`. -/
def contains (text sub : String) : Bool :=
  containsChars text.data sub.data

/-- ASCII branch of `unicode.ToLower`: `A`..`Z` are shifted to `a`..`z`. -/
def asciiLower (c : Char) : Char :=
  if 'A'.toNat ≤ c.toNat ∧ c.toNat ≤ 'Z'.toNat then Char.ofNat (c.toNat + 32) else c

/-- Go's `unicode.ToLower`; `caseTable` is the lower-case mapping of the
Unicode case tables, consulted for code points above ASCII only. -/
def runeToLower (caseTable : Char → Char) (c : Char) : Char :=
  if c.toNat < 128 then asciiLower c else caseTable c

/-- Go's `strings.ToLower`. -/
def toLower (caseTable : Char → Char) (s : String) : String :=
  ⟨s.data.map (runeToLower caseTable)⟩

/-! ## Floating point -/

/-- Values of a `float64`, as far as ordering is concerned. -/
inductive F64 where
  | nan
  | negInf
  | posInf
  | fin (q : ℚ)
  deriving DecidableEq

namespace F64

/-- IEEE 754 `<`: false whenever an operand is NaN. -/
def lt : F64 → F64 → Bool
  | nan, _ => false
  | _, nan => false
  | negInf, negInf => false
  | negInf, _ => true
  | _, negInf => false
  | posInf, _ => false
  | fin _, posInf => true
  | fin a, fin b => decide (a < b)

/-- IEEE 754 `>=`: false whenever an operand is NaN. -/
def ge : F64 → F64 → Bool
  | nan, _ => false
  | _, nan => false
  | _, negInf => true
  | negInf, _ => false
  | posInf, _ => true
  | fin _, posInf => false
  | fin a, fin b => decide (b ≤ a)

end F64

/-! ## Data model -/

/-- Go's `error` values, carried by their message; the nil error is `none`. -/
abbrev GoError := String

/-- Threshold of a good uptime (`goodUptime = 99.0`). -/
def goodUptime : F64 := F64.fin 99

/-- Phrases of alert elements that mark an instance as not reliable. -/
def suspiciousPhrases : List String :=
  ["test service", "deleted anytime", "long-term storage", "testing purposes"]

/-- One entry of the directory (`type Instance struct`). -/
structure Instance where
  Version : String
  Address : String
  Uptime : F64
  deriving DecidableEq

/-- The resulting report (`type FinalResult struct`): `Reliable` is documented
as uptime >= 99% without threats of sudden deletion, `LowUptime` as uptime < 99%
without such threats, `Unreliable` as data that may be deleted at any time. -/
structure FinalResult where
  Reliable : List Instance
  LowUptime : List Instance
  Unreliable : List Instance
  deriving DecidableEq

/-- Intermediate result handed from a worker to the collecting loop
(`type checkResult struct`); the field `inst` is the source's `instance`. -/
structure checkResult where
  inst : Instance
  category : String
  err : Option GoError
  deriving DecidableEq

/-- The `map[string]error` of failures: an association list with at most one
entry per key. -/
abbrev ErrMap := List (String × GoError)

/-- Map assignment `m[k] = v`: overwrite the entry of `k` or add one. -/
def ErrMap.set : ErrMap → String → GoError → ErrMap
  | [], k, v => [(k, v)]
  | (k', v') :: rest, k, v =>
    if k' = k then (k, v) :: rest else (k', v') :: ErrMap.set rest k v

/-- Map lookup `m[k]`. -/
def ErrMap.get (m : ErrMap) (k : String) : Option GoError :=
  (m.find? (fun e => e.1 = k)).map (fun e => e.2)

/-! ## Documents and the network -/

/-- Page of one instance, as seen through the two selections that
`checkInstance` makes on it. -/
structure InstancePage where
  /-- For each element matched by `select#pasteExpiration option`, in document
  order, its `value` attribute (`none` when the attribute is absent). -/
  expirationOptions : List (Option String)
  /-- For each element matched by `div.alert.alert-info[role='alert']`, in
  document order, its text. -/
  infoAlerts : List String
  deriving DecidableEq

/-- A table row matched by `tbody tr`: the text of each `td` found in it. -/
structure TableRow where
  cells : List String
  deriving DecidableEq

/-- The element right after a heading (`s.Next()`): its tag name and the rows
that `Find("tbody tr")` selects below it. -/
structure Sibling where
  tag : String
  rows : List TableRow
  deriving DecidableEq

/-- An `h5` element: its text and its next sibling element, if any. -/
structure Heading where
  text : String
  next : Option Sibling
  deriving DecidableEq

/-- The directory page: the elements matched by `h5`, in document order. -/
abbrev DirectoryPage := List Heading

/-- An HTTP response: the status code and the outcome of parsing the body
(`goquery.NewDocumentFromReader(resp.Body)`). -/
structure Response (Doc : Type) where
  StatusCode : Int
  Body : Except GoError Doc

/-- The network as the program meets it: for each URL, the error of
`http.NewRequest` (if any) and the outcome of `client.Do`, which is an error
when the request fails or runs into `siteTimeout`. -/
structure Net (Doc : Type) where
  newRequest : String → Option GoError
  roundTrip : String → Except GoError (Response Doc)

/-! ## The program -/

/-- The function `fetchPage`: load a page. The request headers and the closing
of the body have no influence on what is returned and are left out. -/
def fetchPage {Doc : Type} (net : Net Doc) (url : String) : Except GoError Doc :=
  match net.newRequest url with
  | some err => .error err
  | none =>
    match net.roundTrip url with
    | .error err => .error err
    | .ok resp =>
      if resp.StatusCode ≠ 200 then .error ("status " ++ toString resp.StatusCode)
      else resp.Body

/-- Body of the loop over `tbody tr` in `parseDirectory`. -/
def rowEach (parseFloat : String → Except GoError F64) (version : String)
    (instances : List Instance) (tr : TableRow) : List Instance :=
  let tds := tr.cells
  if tds.length < 8 then instances
  else
    let address := trimSpace (tds.getD 0 "")
    let uptimeRaw := trimSpace (tds.getD 7 "")
    let uptimeClean := replaceAll uptimeRaw "%" ""
    match parseFloat (trimSpace uptimeClean) with
    | .ok val => instances ++ [{ Version := version, Address := address, Uptime := val }]
    | .error _ => instances

/-- Body of the loop over `h5` in `parseDirectory`. -/
def headingEach (parseFloat : String → Except GoError F64)
    (instances : List Instance) (s : Heading) : List Instance :=
  let versionRaw := trimSpace s.text
  let version := trimPrefix versionRaw "Version "
  match s.next with
  | none => instances
  | some table =>
    if table.tag ≠ "table" then instances
    else table.rows.foldl (rowEach parseFloat version) instances

/-- The function `parseDirectory`: collect all instances with a numeric
uptime. `parseFloat` is `strconv.ParseFloat(·, 64)`. -/
def parseDirectory (parseFloat : String → Except GoError F64)
    (doc : DirectoryPage) : List Instance :=
  doc.foldl (headingEach parseFloat) []

/-- First selection loop of `checkInstance`: is there an option whose `value`
attribute exists and equals `never`. -/
def scanNever (options : List (Option String)) : Bool :=
  options.foldl (fun hasNever val => if val = some "never" then true else hasNever) false

/-- Inner loop of the alert scan: test one lower-cased text against every
suspicious phrase. -/
def scanPhrases (text : String) (isSuspicious : Bool) : Bool :=
  suspiciousPhrases.foldl
    (fun acc phrase => if contains text phrase then true else acc) isSuspicious

/-- Second selection loop of `checkInstance`. -/
def scanAlerts (caseTable : Char → Char) (alerts : List String) : Bool :=
  alerts.foldl (fun acc s => scanPhrases (toLower caseTable s) acc) false

/-- The function `checkInstance`: check one site. -/
def checkInstance (caseTable : Char → Char) (net : Net InstancePage)
    (inst : Instance) : checkResult :=
  match fetchPage net inst.Address with
  | .error err => { inst := inst, category := "discard", err := some err }
  | .ok doc =>
    let hasNever := scanNever doc.expirationOptions
    if !hasNever then { inst := inst, category := "discard", err := none }
    else
      let isSuspicious := scanAlerts caseTable doc.infoAlerts
      if isSuspicious then { inst := inst, category := "unreliable", err := none }
      else if F64.lt inst.Uptime goodUptime then
        { inst := inst, category := "low_uptime", err := none }
      else { inst := inst, category := "reliable", err := none }

/-- State of the collecting loop of `processConcurrently`; `progress` lists the
`count/total` pairs printed so far. -/
structure DrainState where
  final : FinalResult
  errorsMap : ErrMap
  count : Nat
  progress : List (Nat × Nat)
  deriving DecidableEq

/-- State before the first result is received. -/
def DrainState.init : DrainState :=
  { final := { Reliable := [], LowUptime := [], Unreliable := [] },
    errorsMap := [], count := 0, progress := [] }

/-- Body of `for res := range results` in `processConcurrently`. -/
def drainStep (total : Nat) (st : DrainState) (res : checkResult) : DrainState :=
  let count := st.count + 1
  let progress :=
    if count % 10 = 0 ∨ count = total then st.progress ++ [(count, total)] else st.progress
  match res.err with
  | some err =>
    { st with count := count, progress := progress,
              errorsMap := st.errorsMap.set res.inst.Address err }
  | none =>
    let final := st.final
    let final :=
      if res.category = "reliable" then { final with Reliable := final.Reliable ++ [res.inst] }
      else if res.category = "low_uptime" then
        { final with LowUptime := final.LowUptime ++ [res.inst] }
      else if res.category = "unreliable" then
        { final with Unreliable := final.Unreliable ++ [res.inst] }
      else final
    { st with count := count, progress := progress, final := final }

/-- The collecting loop of `processConcurrently` run on the results in the
order in which they arrive on the channel. -/
def drain (total : Nat) (results : List checkResult) : DrainState :=
  results.foldl (drainStep total) DrainState.init

/-- What `processConcurrently` returns for the candidate `list` when the
workers deliver `results`, in this order, to the collecting loop. -/
def processConcurrently (list : List Instance) (results : List checkResult) :
    FinalResult × ErrMap :=
  let st := drain list.length results
  (st.final, st.errorsMap)

/-! ## Vocabulary of the properties -/

/-- Instances of the results that carry no failure and the given category, in
order of arrival. -/
def routedTo (category : String) (results : List checkResult) : List Instance :=
  (results.filter (fun r => decide (r.err = none ∧ r.category = category))).map (fun r => r.inst)

/-- Instances of the results that carry a failure, in order of arrival. -/
def failedInstances (results : List checkResult) : List Instance :=
  (results.filter (fun r => decide (r.err ≠ none))).map (fun r => r.inst)

/-- All instances of a report, bucket after bucket. -/
def FinalResult.all (final : FinalResult) : List Instance :=
  final.Reliable ++ final.LowUptime ++ final.Unreliable

/-- The string that `parseDirectory` passes to `strconv.ParseFloat`, as a
function of the text of column 7: `uptimeRaw`, then `uptimeClean`, then the
second `TrimSpace`. -/
def uptimeArg (cell : String) : String :=
  trimSpace (replaceAll (trimSpace cell) "%" "")

/-- The version label that `parseDirectory` derives from the text of a heading. -/
def versionOf (s : Heading) : String :=
  trimPrefix (trimSpace s.text) "Version "

/-- The rows of the tables that immediately follow a heading, in document
order, each with the version label of its heading. -/
def tableRows (doc : DirectoryPage) : List (String × TableRow) :=
  doc.flatMap (fun s =>
    match s.next with
    | some el => if el.tag = "table" then el.rows.map (fun tr => (versionOf s, tr)) else []
    | none => [])

/-- What the loop body of `parseDirectory` appends for a row, if anything: for
a row of at least 8 cells on which `strconv.ParseFloat` returns no error, the
version of its heading, the trimmed text of column 0 and the parsed value. -/
def rowCandidate (parseFloat : String → Except GoError F64) (vr : String × TableRow) :
    Option Instance :=
  if 8 ≤ vr.2.cells.length then
    match parseFloat (uptimeArg (vr.2.cells.getD 7 "")) with
    | .ok val =>
      some { Version := vr.1, Address := trimSpace (vr.2.cells.getD 0 ""), Uptime := val }
    | .error _ => none
  else none

/-- The uptime text with its surrounding white space removed, every `%`
removed wherever it stands, and the surrounding white space removed once
more. -/
def cleanUptimeText (cell : String) : String :=
  ⟨trimSpaceChars ((trimSpaceChars cell.data).filter (fun c => c != '%'))⟩

/-- The candidate of a row whose uptime is a number: the row has at least 8
cells and the parser turns the cleaned text of column 7 into a value other than
NaN. -/
def numericCandidate (parseFloat : String → Except GoError F64) (vr : String × TableRow) :
    Option Instance :=
  if 8 ≤ vr.2.cells.length then
    match parseFloat (cleanUptimeText (vr.2.cells.getD 7 "")) with
    | .ok val =>
      if val = F64.nan then none
      else some { Version := vr.1, Address := trimSpace (vr.2.cells.getD 0 ""), Uptime := val }
    | .error _ => none
  else none

/-- A row of at least 8 cells whose cleaned uptime text the parser turns into
NaN. -/
def nanRow (parseFloat : String → Except GoError F64) (tr : TableRow) : Bool :=
  decide (8 ≤ tr.cells.length) &&
    (match parseFloat (cleanUptimeText (tr.cells.getD 7 "")) with
     | .ok val => decide (val = F64.nan)
     | .error _ => false)

/-- A row that yields nothing: it has fewer than 8 cells, or the parser rejects
the cleaned text of column 7. -/
def rejectedRow (parseFloat : String → Except GoError F64) (tr : TableRow) : Prop :=
  tr.cells.length < 8 ∨ ∃ e, parseFloat (cleanUptimeText (tr.cells.getD 7 "")) = .error e

/-- The uptime string as the specification words it: the text of the cell with
the surrounding white space removed and one trailing `%` removed, nothing else
altered. -/
def specUptimeText (cell : String) : String :=
  let t := trimSpaceChars cell.data
  ⟨if t.getLast? = some '%' then t.dropLast else t⟩

/-- The candidate of a row as the specification words it: the row has at least
8 cells and its column-7 text, stripped of surrounding white space and of one
trailing `%`, parses as a number. -/
def specRowCandidate (parseFloat : String → Except GoError F64) (vr : String × TableRow) :
    Option Instance :=
  if 8 ≤ vr.2.cells.length then
    match parseFloat (specUptimeText (vr.2.cells.getD 7 "")) with
    | .ok val =>
      some { Version := vr.1, Address := trimSpace (vr.2.cells.getD 0 ""), Uptime := val }
    | .error _ => none
  else none

/-- The failure of the last result, in order of arrival, that carries a failure
for the address `a`. -/
def lastFailure (a : String) (results : List checkResult) : Option GoError :=
  (results.reverse.find? (fun r => decide (r.inst.Address = a ∧ r.err ≠ none))).bind
    (fun r => r.err)

/-! ## Sample inputs -/

/-- A network on which every URL answers 200 with the given page. -/
def netServing (page : InstancePage) : Net InstancePage :=
  { newRequest := fun _ => none
    roundTrip := fun _ => .ok { StatusCode := 200, Body := .ok page } }

/-- A network on which every request fails with the given error, as when
the request runs into the client timeout. -/
def netFailing (err : GoError) : Net InstancePage :=
  { newRequest := fun _ => none
    roundTrip := fun _ => .error err }

/-- A page with permanent storage and no alert. -/
def pageClean : InstancePage :=
  { expirationOptions := [some "5min", some "1day", some "never"], infoAlerts := [] }

/-- A page without a `never` option (the nearest value is `Never`) whose alert
carries a suspicious phrase. -/
def pageNoNever : InstancePage :=
  { expirationOptions := [some "5min", none, some "Never", some "1year"],
    infoAlerts := ["This is a test service: data may be deleted anytime."] }

/-- A page with permanent storage, one clean alert and one alert carrying a
suspicious phrase in mixed case. -/
def pageSuspicious : InstancePage :=
  { expirationOptions := [some "never"],
    infoAlerts := ["Welcome to our paste bin.", "This is a TEST Service, use with care."] }

/-- Candidate A of the scenario: uptime 99.50. -/
def instA : Instance :=
  { Version := "1.7.6", Address := "https://a.example", Uptime := F64.fin (199 / 2) }

/-- Candidate B of the scenario: uptime 42.00. -/
def instB : Instance :=
  { Version := "1.7.6", Address := "https://b.example", Uptime := F64.fin 42 }

/-- A candidate whose uptime is positive infinity. -/
def instTop : Instance :=
  { Version := "1.7.6", Address := "https://top.example", Uptime := F64.posInf }

/-- A candidate whose site is down. -/
def instDown : Instance :=
  { Version := "1.7.6", Address := "https://down.example", Uptime := F64.posInf }

/-- A network on which every URL answers with the given status code. -/
def netStatus (code : Int) (page : InstancePage) : Net InstancePage :=
  { newRequest := fun _ => none
    roundTrip := fun _ => .ok { StatusCode := code, Body := .ok page } }

/-- A candidate whose site answers some requests and not others. -/
def instFlaky : Instance :=
  { Version := "1.7.6", Address := "https://flaky.example", Uptime := F64.fin 100 }

/-- A candidate whose uptime is NaN. -/
def instNaN : Instance :=
  { Version := "1.7.6", Address := "https://nan.example", Uptime := F64.nan }

/-- A fragment of `strconv.ParseFloat(·, 64)`, defined on the strings of the
sample directories: `99.50`, `42.00` and `99` denote these numbers, `NaN` (which
`ParseFloat` accepts in any letter case) denotes the NaN value, and the other
strings of the samples are syntax errors. -/
def sampleParseFloat (s : String) : Except GoError F64 :=
  if s = "99.50" then .ok (F64.fin (199 / 2))
  else if s = "42.00" then .ok (F64.fin 42)
  else if s = "99" then .ok (F64.fin 99)
  else if s = "NaN" then .ok F64.nan
  else .error ("strconv.ParseFloat: parsing " ++ s ++ ": invalid syntax")

/-- A table row of the directory with the given address and uptime cells; the
six cells in between are the other columns of the listing. -/
def rowOf (address uptime : String) : TableRow :=
  { cells := [address, "1.7.6", "yes", "yes", "A+", "A+", "DE", uptime] }

/-- The directory of the scenario: one version heading followed by a table with
row A (uptime `99.50%`) and row B (uptime `42.00%`). -/
def directoryAB : DirectoryPage :=
  [{ text := "Version 1.7.6",
     next := some { tag := "table",
                    rows := [rowOf "https://a.example" "99.50%",
                             rowOf "https://b.example" "42.00%"] } }]

/-- The directory of the scenario with three more rows in the table (one with 5
cells, one with the uptime `n/a`, row A again) and a heading followed by a
paragraph. -/
def directoryMixed : DirectoryPage :=
  [{ text := "Version 1.7.6",
     next := some { tag := "table",
                    rows := [rowOf "https://a.example" "99.50%",
                             { cells := ["https://short.example", "1.7.6", "yes", "yes", "A+"] },
                             rowOf "https://na.example" "n/a",
                             rowOf "https://b.example" " 42.00% ",
                             rowOf "https://a.example" "99.50%"] } },
   { text := "Version 1.7.5",
     next := some { tag := "p", rows := [rowOf "https://c.example" "99.50%"] } },
   { text := "Version 1.7.4", next := none }]

/-- A directory whose only row publishes the uptime `9%9`. -/
def directoryOdd : DirectoryPage :=
  [{ text := "Version 1.7.6",
     next := some { tag := "table", rows := [rowOf "https://odd.example" "9%9"] } }]

/-- The directory of the scenario's row A followed by a row that publishes the
uptime `9%9`. -/
def directoryInnerPercent : DirectoryPage :=
  [{ text := "Version 1.7.6",
     next := some { tag := "table",
                    rows := [rowOf "https://a.example" "99.50%",
                             rowOf "https://odd.example" "9%9"] } }]

/-- A directory whose only row publishes the uptime `NaN`. -/
def directoryNaN : DirectoryPage :=
  [{ text := "Version 1.7.6",
     next := some { tag := "table", rows := [rowOf "https://nan.example" "NaN"] } }]

/-! ## The selection loops of `checkInstance` -/

theorem foldl_never (options : List (Option String)) (acc : Bool) :
    options.foldl (fun hasNever val => if val = some "never" then true else hasNever) acc
      = (acc || decide (some "never" ∈ options)) := by
  induction options generalizing acc with
  | nil => simp
  | cons v rest ih =>
    rw [List.foldl_cons, ih]
    by_cases hv : v = some "never"
    · simp [hv]
    · have hv' : ¬ some "never" = v := fun h => hv h.symm
      simp [hv, hv']

theorem scanNever_eq_true (options : List (Option String)) :
    scanNever options = true ↔ some "never" ∈ options := by
  unfold scanNever
  rw [foldl_never]
  simp

theorem foldl_phrases (text : String) (phrases : List String) (acc : Bool) :
    phrases.foldl (fun acc phrase => if contains text phrase then true else acc) acc
      = (acc || phrases.any (fun phrase => contains text phrase)) := by
  induction phrases generalizing acc with
  | nil => simp
  | cons ph rest ih =>
    rw [List.foldl_cons, ih]
    cases hc : contains text ph <;> cases acc <;> simp [hc]

theorem scanPhrases_eq (text : String) (acc : Bool) :
    scanPhrases text acc
      = (acc || suspiciousPhrases.any (fun phrase => contains text phrase)) :=
  foldl_phrases text suspiciousPhrases acc

theorem foldl_alerts (caseTable : Char → Char) (alerts : List String) (acc : Bool) :
    alerts.foldl (fun acc s => scanPhrases (toLower caseTable s) acc) acc
      = (acc || alerts.any (fun s =>
          suspiciousPhrases.any (fun phrase => contains (toLower caseTable s) phrase))) := by
  induction alerts generalizing acc with
  | nil => simp
  | cons a rest ih =>
    rw [List.foldl_cons, ih, scanPhrases_eq]
    simp [Bool.or_assoc]

theorem scanAlerts_eq_true (caseTable : Char → Char) (alerts : List String) :
    scanAlerts caseTable alerts = true ↔
      ∃ alert ∈ alerts, ∃ phrase ∈ suspiciousPhrases,
        contains (toLower caseTable alert) phrase = true := by
  unfold scanAlerts
  rw [foldl_alerts]
  simp

theorem scanAlerts_eq_false (caseTable : Char → Char) (alerts : List String) :
    scanAlerts caseTable alerts = false ↔
      ∀ alert ∈ alerts, ∀ phrase ∈ suspiciousPhrases,
        contains (toLower caseTable alert) phrase = false := by
  rw [← Bool.not_eq_true, scanAlerts_eq_true]
  simp

/-! ## Lower-casing ignores ASCII letter case -/

theorem toNat_ofNat_small (n : Nat) (h : n < 0xd800) : (Char.ofNat n).toNat = n := by
  have hv : n.isValidChar := Or.inl h
  unfold Char.ofNat
  rw [dif_pos hv]
  rfl

theorem asciiLower_toNat_lt (c : Char) (h : c.toNat < 128) : (asciiLower c).toNat < 128 := by
  unfold asciiLower
  split
  · rename_i hc
    have h1 : c.toNat ≤ 90 := hc.2
    rw [toNat_ofNat_small _ (by omega)]
    omega
  · exact h

theorem asciiLower_upper (c : Char) (hc : 'A'.toNat ≤ c.toNat ∧ c.toNat ≤ 'Z'.toNat) :
    asciiLower c = Char.ofNat (c.toNat + 32) :=
  if_pos hc

theorem asciiLower_other (c : Char) (hc : ¬ ('A'.toNat ≤ c.toNat ∧ c.toNat ≤ 'Z'.toNat)) :
    asciiLower c = c :=
  if_neg hc

theorem asciiLower_idem (c : Char) : asciiLower (asciiLower c) = asciiLower c := by
  by_cases hc : 'A'.toNat ≤ c.toNat ∧ c.toNat ≤ 'Z'.toNat
  · have h0 : (65 : Nat) ≤ c.toNat := hc.1
    have h1 : c.toNat ≤ 90 := hc.2
    have hn : (asciiLower c).toNat = c.toNat + 32 := by
      rw [asciiLower_upper c hc, toNat_ofNat_small _ (by omega)]
    apply asciiLower_other
    intro hh
    have : (asciiLower c).toNat ≤ 90 := hh.2
    omega
  · rw [asciiLower_other c hc, asciiLower_other c hc]

theorem asciiLower_of_not_ascii (c : Char) (h : ¬ c.toNat < 128) : asciiLower c = c := by
  apply asciiLower_other
  intro hh
  have : c.toNat ≤ 90 := hh.2
  omega

theorem runeToLower_asciiLower (caseTable : Char → Char) (c : Char) :
    runeToLower caseTable (asciiLower c) = runeToLower caseTable c := by
  by_cases h : c.toNat < 128
  · unfold runeToLower
    rw [if_pos h, if_pos (asciiLower_toNat_lt c h), asciiLower_idem]
  · rw [asciiLower_of_not_ascii c h]

theorem toLower_congr_asciiLower (caseTable : Char → Char) (s t : String)
    (h : s.data.map asciiLower = t.data.map asciiLower) :
    toLower caseTable s = toLower caseTable t := by
  unfold toLower
  congr 1
  have key : ∀ l : List Char,
      l.map (runeToLower caseTable) = (l.map asciiLower).map (runeToLower caseTable) := by
    intro l
    rw [List.map_map]
    apply List.map_congr_left
    intro c _
    exact (runeToLower_asciiLower caseTable c).symm
  rw [key s.data, key t.data, h]

/-! ## `checkInstance` -/

theorem checkInstance_of_error (caseTable : Char → Char) (net : Net InstancePage)
    (inst : Instance) (e : GoError) (h : fetchPage net inst.Address = .error e) :
    checkInstance caseTable net inst = { inst := inst, category := "discard", err := some e } := by
  unfold checkInstance
  rw [h]

theorem checkInstance_of_ok (caseTable : Char → Char) (net : Net InstancePage)
    (inst : Instance) (doc : InstancePage) (h : fetchPage net inst.Address = .ok doc) :
    checkInstance caseTable net inst =
      if scanNever doc.expirationOptions = false then
        { inst := inst, category := "discard", err := none }
      else if scanAlerts caseTable doc.infoAlerts = true then
        { inst := inst, category := "unreliable", err := none }
      else if F64.lt inst.Uptime goodUptime = true then
        { inst := inst, category := "low_uptime", err := none }
      else { inst := inst, category := "reliable", err := none } := by
  unfold checkInstance
  rw [h]
  cases hn : scanNever doc.expirationOptions <;> simp [hn]

theorem checkInstance_category_of_no_err (caseTable : Char → Char) (net : Net InstancePage)
    (inst : Instance) (h : (checkInstance caseTable net inst).err = none) :
    (checkInstance caseTable net inst).category ∈
      ["reliable", "low_uptime", "unreliable", "discard"] := by
  cases hfetch : fetchPage net inst.Address with
  | error e =>
    rw [checkInstance_of_error caseTable net inst e hfetch] at h
    cases h
  | ok doc =>
    rw [checkInstance_of_ok caseTable net inst doc hfetch]
    split_ifs <;> simp

theorem F64.lt_false_of_ge (x y : F64) (h : F64.ge x y = true) : F64.lt x y = false := by
  cases x <;> cases y <;> simp_all [F64.ge, F64.lt]

theorem drainStep_final_of_ok (total : Nat) (st : DrainState) (res : checkResult)
    (h : res.err = none) :
    (drainStep total st res).final =
      if res.category = "reliable" then
        { st.final with Reliable := st.final.Reliable ++ [res.inst] }
      else if res.category = "low_uptime" then
        { st.final with LowUptime := st.final.LowUptime ++ [res.inst] }
      else if res.category = "unreliable" then
        { st.final with Unreliable := st.final.Unreliable ++ [res.inst] }
      else st.final := by
  unfold drainStep
  rw [h]

theorem drainStep_errorsMap_of_ok (total : Nat) (st : DrainState) (res : checkResult)
    (h : res.err = none) : (drainStep total st res).errorsMap = st.errorsMap := by
  unfold drainStep
  rw [h]

theorem drainStep_of_err (total : Nat) (st : DrainState) (res : checkResult) (e : GoError)
    (h : res.err = some e) :
    (drainStep total st res).errorsMap = st.errorsMap.set res.inst.Address e ∧
    (drainStep total st res).final = st.final := by
  unfold drainStep
  rw [h]
  exact ⟨rfl, rfl⟩

/-- C3: when the fetch succeeds and no option of the expiration select has the
value exactly `never`, `checkInstance` returns the category `discard` with no
failure, whatever the uptime and the alerts are, and the collecting loop then
leaves the three buckets (and the error map) as they were. -/
theorem no_never_is_discarded (caseTable : Char → Char) (net : Net InstancePage)
    (inst : Instance) (doc : InstancePage)
    (hfetch : fetchPage net inst.Address = .ok doc)
    (hno : some "never" ∉ doc.expirationOptions) :
    checkInstance caseTable net inst = { inst := inst, category := "discard", err := none } ∧
    ∀ (total : Nat) (st : DrainState),
      (drainStep total st (checkInstance caseTable net inst)).final = st.final ∧
      (drainStep total st (checkInstance caseTable net inst)).errorsMap = st.errorsMap := by
  have hscan : scanNever doc.expirationOptions = false := by
    rw [← Bool.not_eq_true, scanNever_eq_true]
    exact hno
  have hres : checkInstance caseTable net inst =
      { inst := inst, category := "discard", err := none } := by
    rw [checkInstance_of_ok caseTable net inst doc hfetch, if_pos hscan]
  refine ⟨hres, fun total st => ?_⟩
  rw [hres]
  refine ⟨?_, drainStep_errorsMap_of_ok total st _ rfl⟩
  rw [drainStep_final_of_ok total st _ rfl]
  simp

/-- Witness for C3: a page whose options are `5min`, one without a value, `Never`
and `1year`, with a suspicious alert, probed for a candidate of uptime
positive infinity. -/
theorem no_never_is_discarded_witness :
    F64.ge instTop.Uptime goodUptime = true ∧
    checkInstance id (netServing pageNoNever) instTop =
      { inst := instTop, category := "discard", err := none } ∧
    (drainStep 1 DrainState.init (checkInstance id (netServing pageNoNever) instTop)).final
      = DrainState.init.final :=
  ⟨rfl,
   (no_never_is_discarded id (netServing pageNoNever) instTop pageNoNever rfl (by decide)).1,
   ((no_never_is_discarded id (netServing pageNoNever) instTop pageNoNever rfl (by decide)).2
      1 DrainState.init).1⟩

/-- C4: when the fetch succeeds, some option has the value `never` and some
informational alert, lower-cased, contains one of the suspicious phrases,
`checkInstance` returns `unreliable` for every candidate (hence every uptime),
however many other alerts there are. Letter case does not matter: it is enough
that some text equal to the alert up to the case of its ASCII letters contains
the phrase once lower-cased. -/
theorem suspicious_alert_is_unreliable (caseTable : Char → Char) (net : Net InstancePage)
    (inst : Instance) (doc : InstancePage) (alert recased phrase : String)
    (hfetch : fetchPage net inst.Address = .ok doc)
    (hnever : some "never" ∈ doc.expirationOptions)
    (halert : alert ∈ doc.infoAlerts)
    (hcase : recased.data.map asciiLower = alert.data.map asciiLower)
    (hphrase : phrase ∈ suspiciousPhrases)
    (hcontains : contains (toLower caseTable recased) phrase = true) :
    checkInstance caseTable net inst =
      { inst := inst, category := "unreliable", err := none } := by
  have hscan : scanNever doc.expirationOptions = true := (scanNever_eq_true _).2 hnever
  have hsusp : scanAlerts caseTable doc.infoAlerts = true := by
    rw [scanAlerts_eq_true]
    refine ⟨alert, halert, phrase, hphrase, ?_⟩
    rw [← toLower_congr_asciiLower caseTable recased alert hcase]
    exact hcontains
  rw [checkInstance_of_ok caseTable net inst doc hfetch, if_neg (by simp [hscan]), if_pos hsusp]

/-- Witness for C4: the second alert of the page reads `This is a TEST Service,
use with care.`, the first one is clean, and the uptime is positive infinity. -/
theorem suspicious_alert_is_unreliable_witness :
    F64.ge instTop.Uptime goodUptime = true ∧
    checkInstance id (netServing pageSuspicious) instTop =
      { inst := instTop, category := "unreliable", err := none } :=
  ⟨rfl,
   suspicious_alert_is_unreliable id (netServing pageSuspicious) instTop pageSuspicious
     "This is a TEST Service, use with care." "this is a test service, use with care."
     "test service" rfl (by decide) (by decide) (by decide) (by decide) (by decide)⟩

/-- C5: when the fetch succeeds, some option has the value `never` and no
informational alert contains a suspicious phrase, `checkInstance` returns
`reliable` when the uptime is >= 99.0 (so also at exactly 99.0) and `low_uptime`
when it is < 99.0, and the collecting loop appends the candidate to the
`Reliable`, respectively the `LowUptime`, bucket. -/
theorem clean_page_by_uptime (caseTable : Char → Char) (net : Net InstancePage)
    (inst : Instance) (doc : InstancePage)
    (hfetch : fetchPage net inst.Address = .ok doc)
    (hnever : some "never" ∈ doc.expirationOptions)
    (hclean : ∀ alert ∈ doc.infoAlerts, ∀ phrase ∈ suspiciousPhrases,
      contains (toLower caseTable alert) phrase = false) :
    (F64.ge inst.Uptime goodUptime = true →
      checkInstance caseTable net inst = { inst := inst, category := "reliable", err := none } ∧
      ∀ (total : Nat) (st : DrainState),
        (drainStep total st (checkInstance caseTable net inst)).final =
          { st.final with Reliable := st.final.Reliable ++ [inst] }) ∧
    (inst.Uptime = F64.fin 99 →
      checkInstance caseTable net inst = { inst := inst, category := "reliable", err := none }) ∧
    (F64.lt inst.Uptime goodUptime = true →
      checkInstance caseTable net inst = { inst := inst, category := "low_uptime", err := none } ∧
      ∀ (total : Nat) (st : DrainState),
        (drainStep total st (checkInstance caseTable net inst)).final =
          { st.final with LowUptime := st.final.LowUptime ++ [inst] }) := by
  have hscan : scanNever doc.expirationOptions = true := (scanNever_eq_true _).2 hnever
  have hsusp : scanAlerts caseTable doc.infoAlerts = false :=
    (scanAlerts_eq_false _ _).2 hclean
  have hok := checkInstance_of_ok caseTable net inst doc hfetch
  rw [if_neg (by simp [hscan]), if_neg (by simp [hsusp])] at hok
  have hge : F64.ge inst.Uptime goodUptime = true →
      checkInstance caseTable net inst =
        { inst := inst, category := "reliable", err := none } := by
    intro h
    rw [hok, if_neg (by simp [F64.lt_false_of_ge _ _ h])]
  refine ⟨fun h => ⟨hge h, fun total st => ?_⟩, fun h => hge ?_, fun h => ?_⟩
  · rw [hge h, drainStep_final_of_ok total st _ rfl]
    simp
  · rw [h]
    simp [F64.ge, goodUptime]
  · have hres : checkInstance caseTable net inst =
        { inst := inst, category := "low_uptime", err := none } := by
      rw [hok, if_pos h]
    refine ⟨hres, fun total st => ?_⟩
    rw [hres, drainStep_final_of_ok total st _ rfl]
    simp

/-- Witness for C5: candidate A (uptime 99.50) and candidate B (uptime 42.00),
both serving a page with a `never` option and no alert, land in `Reliable` and
`LowUptime`. -/
theorem clean_page_by_uptime_witness :
    checkInstance id (netServing pageClean) instA =
      { inst := instA, category := "reliable", err := none } ∧
    checkInstance id (netServing pageClean) instB =
      { inst := instB, category := "low_uptime", err := none } ∧
    (processConcurrently [instA, instB]
        [checkInstance id (netServing pageClean) instA,
         checkInstance id (netServing pageClean) instB]).1 =
      { Reliable := [instA], LowUptime := [instB], Unreliable := [] } := by
  have hA := ((clean_page_by_uptime id (netServing pageClean) instA pageClean rfl
    (by decide) (by simp [pageClean])).1 (by norm_num [F64.ge, instA, goodUptime])).1
  have hB := ((clean_page_by_uptime id (netServing pageClean) instB pageClean rfl
    (by decide) (by simp [pageClean])).2.2 (by norm_num [F64.lt, instB, goodUptime])).1
  refine ⟨hA, hB, ?_⟩
  rw [hA, hB]
  rfl

/-- C6: the outcome of `checkInstance` carries the input instance unchanged, and
exactly one of two cases holds: the fetch failed, the failure is the fetch error
and the category is `discard`; or the fetch succeeded, there is no failure and
the category is one of the four dispositions. A failure is present exactly when
the fetch failed. -/
theorem checkInstance_outcome (caseTable : Char → Char) (net : Net InstancePage)
    (inst : Instance) :
    (checkInstance caseTable net inst).inst = inst ∧
    Xor'
      (∃ e, fetchPage net inst.Address = .error e ∧
        (checkInstance caseTable net inst).err = some e ∧
        (checkInstance caseTable net inst).category = "discard")
      (∃ doc, fetchPage net inst.Address = .ok doc ∧
        (checkInstance caseTable net inst).err = none ∧
        (checkInstance caseTable net inst).category ∈
          ["reliable", "low_uptime", "unreliable", "discard"]) ∧
    ((checkInstance caseTable net inst).err ≠ none ↔
      ∃ e, fetchPage net inst.Address = .error e) := by
  cases hfetch : fetchPage net inst.Address with
  | error e =>
    have hres := checkInstance_of_error caseTable net inst e hfetch
    rw [hres]
    refine ⟨rfl, Or.inl ⟨⟨e, rfl, rfl, rfl⟩, ?_⟩, ?_⟩
    · rintro ⟨doc, hdoc, _⟩
      cases hdoc
    · simp
  | ok doc =>
    have hres := checkInstance_of_ok caseTable net inst doc hfetch
    have hall : (checkInstance caseTable net inst).inst = inst ∧
        (checkInstance caseTable net inst).err = none ∧
        (checkInstance caseTable net inst).category ∈
          ["reliable", "low_uptime", "unreliable", "discard"] := by
      rw [hres]
      split_ifs <;> simp
    refine ⟨hall.1, Or.inr ⟨⟨doc, rfl, hall.2.1, hall.2.2⟩, ?_⟩, ?_⟩
    · rintro ⟨e, he, _⟩
      cases he
    · simp [hall.2.1]

/-! ## The error map -/

theorem ErrMap.get_set_self (m : ErrMap) (k : String) (v : GoError) :
    (m.set k v).get k = some v := by
  induction m with
  | nil => simp [ErrMap.set, ErrMap.get]
  | cons kv rest ih =>
    obtain ⟨k', v'⟩ := kv
    by_cases hk : k' = k
    · simp [ErrMap.set, ErrMap.get, hk]
    · have ih' := ih
      simp only [ErrMap.get] at ih' ⊢
      simp [ErrMap.set, hk, List.find?_cons, ih']

theorem ErrMap.get_set_other (m : ErrMap) (k k' : String) (v : GoError) (h : k' ≠ k) :
    (m.set k v).get k' = m.get k' := by
  induction m with
  | nil =>
    have h' : ¬ k = k' := fun e => h e.symm
    simp [ErrMap.set, ErrMap.get, h']
  | cons kv rest ih =>
    obtain ⟨k₀, v₀⟩ := kv
    have h' : ¬ k = k' := fun e => h e.symm
    by_cases hk : k₀ = k
    · subst hk
      simp [ErrMap.set, ErrMap.get, List.find?_cons, h']
    · have ih' := ih
      simp only [ErrMap.get] at ih' ⊢
      by_cases hk0 : k₀ = k'
      · subst hk0
        simp [ErrMap.set, hk, List.find?_cons]
      · simp [ErrMap.set, hk, List.find?_cons, hk0, ih']

theorem ErrMap.keys_set (m : ErrMap) (k : String) (v : GoError) :
    (m.set k v).map Prod.fst =
      if k ∈ m.map Prod.fst then m.map Prod.fst else m.map Prod.fst ++ [k] := by
  induction m with
  | nil => simp [ErrMap.set]
  | cons kv rest ih =>
    obtain ⟨k₀, v₀⟩ := kv
    by_cases hk : k₀ = k
    · subst hk
      simp [ErrMap.set]
    · have h' : ¬ k = k₀ := fun e => hk e.symm
      simp only [ErrMap.set, if_neg hk, List.map_cons, ih, List.mem_cons, h', false_or]
      split_ifs <;> simp

theorem ErrMap.get_isSome_iff (m : ErrMap) (k : String) :
    (m.get k).isSome = true ↔ k ∈ m.map Prod.fst := by
  induction m with
  | nil => simp [ErrMap.get]
  | cons kv rest ih =>
    obtain ⟨k₀, v₀⟩ := kv
    simp only [ErrMap.get] at ih ⊢
    by_cases hk : k₀ = k
    · simp [List.find?_cons, hk]
    · have h' : ¬ k = k₀ := fun e => hk e.symm
      simp [List.find?_cons, hk, h', ih]

/-! ## The collecting loop -/

theorem foldl_drainStep_final (total : Nat) (results : List checkResult) (st : DrainState) :
    (results.foldl (drainStep total) st).final =
      { Reliable := st.final.Reliable ++ routedTo "reliable" results,
        LowUptime := st.final.LowUptime ++ routedTo "low_uptime" results,
        Unreliable := st.final.Unreliable ++ routedTo "unreliable" results } := by
  induction results generalizing st with
  | nil => simp [routedTo]
  | cons r rest ih =>
    rw [List.foldl_cons, ih]
    cases he : r.err with
    | some e =>
      rw [(drainStep_of_err total st r e he).2]
      simp [routedTo, List.filter_cons, he]
    | none =>
      rw [drainStep_final_of_ok total st r he]
      by_cases h1 : r.category = "reliable"
      · simp [routedTo, List.filter_cons, he, h1]
      · by_cases h2 : r.category = "low_uptime"
        · simp [routedTo, List.filter_cons, he, h2]
        · by_cases h3 : r.category = "unreliable"
          · simp [routedTo, List.filter_cons, he, h3]
          · simp [routedTo, List.filter_cons, he, h1, h2, h3]

theorem foldl_drainStep_get (total : Nat) (a : String) (results : List checkResult)
    (st : DrainState) :
    (results.foldl (drainStep total) st).errorsMap.get a =
      (lastFailure a results).or (st.errorsMap.get a) := by
  induction results using List.reverseRecOn with
  | nil => simp [lastFailure]
  | append_singleton l r ih =>
    rw [List.foldl_append, List.foldl_cons, List.foldl_nil]
    unfold lastFailure at ih ⊢
    rw [List.reverse_concat, List.find?_cons]
    cases he : r.err with
    | none =>
      rw [drainStep_errorsMap_of_ok total _ r he, ih]
      simp [he]
    | some e =>
      rw [(drainStep_of_err total _ r e he).1]
      by_cases hra : r.inst.Address = a
      · rw [hra, ErrMap.get_set_self]
        simp [he, hra]
      · rw [ErrMap.get_set_other _ _ _ _ (fun hh => hra hh.symm), ih]
        simp [hra]

theorem lastFailure_of_all_failed (a : String) (results : List checkResult)
    (hex : ∃ r ∈ results, r.inst.Address = a)
    (hall : ∀ r ∈ results, r.inst.Address = a → r.err ≠ none) :
    ∃ r ∈ results, r.inst.Address = a ∧ r.err ≠ none ∧ lastFailure a results = r.err := by
  obtain ⟨r₀, hr₀, ha₀⟩ := hex
  unfold lastFailure
  cases hf : results.reverse.find? (fun r => decide (r.inst.Address = a ∧ r.err ≠ none)) with
  | none =>
    rw [List.find?_eq_none] at hf
    have := hf r₀ (List.mem_reverse.2 hr₀)
    simp [ha₀, hall r₀ hr₀ ha₀] at this
  | some r =>
    have hmem := List.mem_reverse.1 (List.mem_of_find?_eq_some hf)
    have hp := List.find?_some hf
    simp only [decide_eq_true_eq] at hp
    exact ⟨r, hmem, hp.1, hp.2, rfl⟩

theorem mem_drain_final_all (total : Nat) (results : List checkResult) (i : Instance) :
    i ∈ (drain total results).final.all ↔
      ∃ r ∈ results, r.err = none ∧ r.inst = i ∧
        r.category ∈ ["reliable", "low_uptime", "unreliable"] := by
  unfold drain
  rw [foldl_drainStep_final]
  simp only [FinalResult.all, DrainState.init, List.nil_append, List.mem_append, routedTo,
    List.mem_map, List.mem_filter, decide_eq_true_eq, List.mem_cons, List.mem_singleton,
    List.not_mem_nil, or_false]
  constructor
  · rintro ((⟨r, ⟨hr, hn, hc⟩, hi⟩ | ⟨r, ⟨hr, hn, hc⟩, hi⟩) | ⟨r, ⟨hr, hn, hc⟩, hi⟩)
    · exact ⟨r, hr, hn, hi, Or.inl hc⟩
    · exact ⟨r, hr, hn, hi, Or.inr (Or.inl hc)⟩
    · exact ⟨r, hr, hn, hi, Or.inr (Or.inr hc)⟩
  · rintro ⟨r, hr, hn, hi, hc | hc | hc⟩
    · exact Or.inl (Or.inl ⟨r, ⟨hr, hn, hc⟩, hi⟩)
    · exact Or.inl (Or.inr ⟨r, ⟨hr, hn, hc⟩, hi⟩)
    · exact Or.inr ⟨r, ⟨hr, hn, hc⟩, hi⟩

theorem mem_routedTo {category : String} {results : List checkResult} {i : Instance}
    (h : i ∈ routedTo category results) :
    ∃ r ∈ results, r.err = none ∧ r.inst = i := by
  unfold routedTo at h
  rw [List.mem_map] at h
  obtain ⟨r, hr, hi⟩ := h
  rw [List.mem_filter] at hr
  exact ⟨r, hr.1, (of_decide_eq_true hr.2).1, hi⟩

/-- C7, as stated, fails when an address recurs: the directory lists
`https://flaky.example` twice, the first probe is answered with a clean page
and the second with status 500. The probe of the address has failed, and the
address is in the error map, but it is in the `Reliable` bucket as well. -/
theorem flaky_address_counterexample :
    (checkInstance id (netStatus 500 pageClean) instFlaky).err = some "status 500" ∧
    (drain 2 [checkInstance id (netServing pageClean) instFlaky,
              checkInstance id (netStatus 500 pageClean) instFlaky]).errorsMap =
      [("https://flaky.example", "status 500")] ∧
    (drain 2 [checkInstance id (netServing pageClean) instFlaky,
              checkInstance id (netStatus 500 pageClean) instFlaky]).final.Reliable =
      [instFlaky] ∧
    ¬ ∀ i ∈ (drain 2 [checkInstance id (netServing pageClean) instFlaky,
              checkInstance id (netStatus 500 pageClean) instFlaky]).final.all,
        i.Address ≠ "https://flaky.example" := by
  have hok : checkInstance id (netServing pageClean) instFlaky =
      { inst := instFlaky, category := "reliable", err := none } := by
    rw [checkInstance_of_ok id (netServing pageClean) instFlaky pageClean rfl,
      if_neg (by decide), if_neg (by decide), if_neg (by norm_num [F64.lt, instFlaky, goodUptime])]
  have herr : checkInstance id (netStatus 500 pageClean) instFlaky =
      { inst := instFlaky, category := "discard", err := some "status 500" } :=
    checkInstance_of_error id (netStatus 500 pageClean) instFlaky "status 500" rfl
  rw [hok, herr]
  refine ⟨rfl, rfl, rfl, ?_⟩
  intro h
  exact h instFlaky (by simp [drain, drainStep, DrainState.init, FinalResult.all]) rfl

/-- C7, amended: one pass of the collecting loop. With a failure present the
error map gets `address -> failure`, overwriting an earlier entry of that
address and touching no other key, and the three buckets stay as they are
whatever the category; without a failure the error map stays as it is and the
instance is appended to the bucket named by its category, or to none for
`discard` (and for any other category). Over a whole run the error map holds,
for each address, the failure of the last failed result of that address, and
the buckets hold exactly the instances of the results without failure whose
category names a bucket. Consequently an address all of whose probes fail,
with whatever errors, is in the error map (with one of those errors) and in no
report bucket. -/
theorem drain_routes_outcome (total : Nat) :
    (∀ (st : DrainState) (res : checkResult) (e : GoError), res.err = some e →
      (drainStep total st res).errorsMap = st.errorsMap.set res.inst.Address e ∧
      (drainStep total st res).errorsMap.get res.inst.Address = some e ∧
      (∀ k, k ≠ res.inst.Address →
        (drainStep total st res).errorsMap.get k = st.errorsMap.get k) ∧
      (drainStep total st res).final = st.final) ∧
    (∀ (st : DrainState) (res : checkResult), res.err = none →
      (drainStep total st res).errorsMap = st.errorsMap ∧
      (res.category = "reliable" → (drainStep total st res).final =
        { st.final with Reliable := st.final.Reliable ++ [res.inst] }) ∧
      (res.category = "low_uptime" → (drainStep total st res).final =
        { st.final with LowUptime := st.final.LowUptime ++ [res.inst] }) ∧
      (res.category = "unreliable" → (drainStep total st res).final =
        { st.final with Unreliable := st.final.Unreliable ++ [res.inst] }) ∧
      (res.category = "discard" → (drainStep total st res).final = st.final) ∧
      (res.category ∉ ["reliable", "low_uptime", "unreliable"] →
        (drainStep total st res).final = st.final)) ∧
    (∀ (results : List checkResult) (a : String),
      (drain total results).errorsMap.get a = lastFailure a results) ∧
    (∀ (results : List checkResult) (i : Instance),
      i ∈ (drain total results).final.all ↔
        ∃ r ∈ results, r.err = none ∧ r.inst = i ∧
          r.category ∈ ["reliable", "low_uptime", "unreliable"]) ∧
    (∀ (results : List checkResult) (a : String),
      (∃ r ∈ results, r.inst.Address = a) →
      (∀ r ∈ results, r.inst.Address = a → r.err ≠ none) →
      (∃ r ∈ results, r.inst.Address = a ∧ r.err ≠ none ∧
        (drain total results).errorsMap.get a = r.err) ∧
      ∀ i ∈ (drain total results).final.all, i.Address ≠ a) := by
  have hget : ∀ (results : List checkResult) (a : String),
      (drain total results).errorsMap.get a = lastFailure a results := by
    intro results a
    unfold drain
    rw [foldl_drainStep_get]
    simp [DrainState.init, ErrMap.get]
  refine ⟨fun st res e he => ?_, fun st res he => ?_, hget, mem_drain_final_all total,
    fun results a hex hall => ?_⟩
  · obtain ⟨hmap, hfinal⟩ := drainStep_of_err total st res e he
    refine ⟨hmap, ?_, fun k hk => ?_, hfinal⟩
    · rw [hmap]; exact ErrMap.get_set_self _ _ _
    · rw [hmap]; exact ErrMap.get_set_other _ _ _ _ hk
  · have hfinal := drainStep_final_of_ok total st res he
    refine ⟨drainStep_errorsMap_of_ok total st res he, fun h => ?_, fun h => ?_, fun h => ?_,
      fun h => ?_, fun h => ?_⟩
    · rw [hfinal, if_pos h]
    · rw [hfinal, h]; simp
    · rw [hfinal, h]; simp
    · rw [hfinal, h]; simp
    · have h1 : ¬ res.category = "reliable" := fun hh => h (by simp [hh])
      have h2 : ¬ res.category = "low_uptime" := fun hh => h (by simp [hh])
      have h3 : ¬ res.category = "unreliable" := fun hh => h (by simp [hh])
      rw [hfinal, if_neg h1, if_neg h2, if_neg h3]
  · constructor
    · obtain ⟨r, hr, hra, hne, hlast⟩ := lastFailure_of_all_failed a results hex hall
      exact ⟨r, hr, hra, hne, (hget results a).trans hlast⟩
    · intro i hi hia
      obtain ⟨r, hr, hnone, hri, _⟩ := (mem_drain_final_all total results i).1 hi
      exact hall r hr (by rw [hri]; exact hia) hnone

/-- Witness for the amended C7: the address `https://down.example` is listed
twice and its probes fail with two different errors, between them a candidate
is probed with success; the address ends up in the error map with the later
error and in no bucket. -/
theorem drain_routes_outcome_witness :
    (drain 3 [checkInstance id (netFailing "context deadline exceeded") instDown,
              checkInstance id (netServing pageClean) instTop,
              checkInstance id (netStatus 500 pageClean) instDown]).errorsMap.get
        "https://down.example" = some "status 500" ∧
    ∀ i ∈ (drain 3 [checkInstance id (netFailing "context deadline exceeded") instDown,
              checkInstance id (netServing pageClean) instTop,
              checkInstance id (netStatus 500 pageClean) instDown]).final.all,
      i.Address ≠ "https://down.example" :=
  ⟨((drain_routes_outcome 3).2.2.1 _ "https://down.example").trans (by decide),
   ((drain_routes_outcome 3).2.2.2.2 _ "https://down.example"
      ⟨checkInstance id (netFailing "context deadline exceeded") instDown, by simp, rfl⟩
      (by
        intro r hr ha
        simp only [List.mem_cons, List.mem_singleton, List.not_mem_nil, or_false] at hr
        rcases hr with rfl | rfl | rfl
        · decide
        · exact absurd ha (by decide)
        · decide)).2⟩

/-! ## The run as a whole -/

theorem routed_failed_perm (results : List checkResult)
    (hcat : ∀ r ∈ results, r.err = none →
      r.category ∈ ["reliable", "low_uptime", "unreliable", "discard"]) :
    (routedTo "reliable" results ++ routedTo "low_uptime" results ++
      routedTo "unreliable" results ++ routedTo "discard" results ++
      failedInstances results).Perm (results.map (fun r => r.inst)) := by
  induction results with
  | nil => simp [routedTo, failedInstances]
  | cons r rest ih =>
    have ih' := ih (fun r' hr' => hcat r' (List.mem_cons_of_mem _ hr'))
    rw [← Multiset.coe_eq_coe] at ih' ⊢
    simp only [← Multiset.coe_add, List.map_cons, ← Multiset.cons_coe] at ih' ⊢
    rw [← ih']
    cases he : r.err with
    | some e =>
      simp [routedTo, failedInstances, List.filter_cons, he, ← Multiset.cons_coe]
    | none =>
      have hc := hcat r (List.mem_cons_self _ _) he
      simp only [List.mem_cons, List.mem_singleton, List.not_mem_nil, or_false] at hc
      rcases hc with h | h | h | h <;>
        simp [routedTo, failedInstances, List.filter_cons, he, h, ← Multiset.cons_coe]

theorem ErrMap.keys_set_nodup (m : ErrMap) (k : String) (v : GoError)
    (h : (m.map Prod.fst).Nodup) : ((m.set k v).map Prod.fst).Nodup := by
  rw [ErrMap.keys_set]
  split_ifs with hk
  · exact h
  · rw [List.nodup_append]
    refine ⟨h, List.nodup_singleton k, ?_⟩
    intro x hx hx'
    rw [List.mem_singleton] at hx'
    exact hk (hx' ▸ hx)

theorem ErrMap.keys_set_toFinset (m : ErrMap) (k : String) (v : GoError) :
    ((m.set k v).map Prod.fst).toFinset = insert k (m.map Prod.fst).toFinset := by
  rw [ErrMap.keys_set]
  split_ifs with hk
  · rw [Finset.insert_eq_of_mem (List.mem_toFinset.2 hk)]
  · ext x
    simp [or_comm]

theorem foldl_drainStep_keys (total : Nat) (results : List checkResult) (st : DrainState)
    (hnd : (st.errorsMap.map Prod.fst).Nodup) :
    ((results.foldl (drainStep total) st).errorsMap.map Prod.fst).Nodup ∧
    ((results.foldl (drainStep total) st).errorsMap.map Prod.fst).toFinset =
      (st.errorsMap.map Prod.fst).toFinset ∪
        ((failedInstances results).map (fun i => i.Address)).toFinset := by
  induction results generalizing st with
  | nil => simp [failedInstances, hnd]
  | cons r rest ih =>
    rw [List.foldl_cons]
    cases he : r.err with
    | none =>
      have hm := drainStep_errorsMap_of_ok total st r he
      obtain ⟨h1, h2⟩ := ih (drainStep total st r) (by rw [hm]; exact hnd)
      refine ⟨h1, ?_⟩
      rw [h2, hm]
      simp [failedInstances, List.filter_cons, he]
    | some e =>
      have hm := (drainStep_of_err total st r e he).1
      obtain ⟨h1, h2⟩ := ih (drainStep total st r)
        (by rw [hm]; exact ErrMap.keys_set_nodup _ _ _ hnd)
      refine ⟨h1, ?_⟩
      rw [h2, hm, ErrMap.keys_set_toFinset]
      ext x
      simp [failedInstances, List.filter_cons, he]

theorem drain_errorsMap_length (total : Nat) (results : List checkResult) :
    (drain total results).errorsMap.length =
      ((failedInstances results).map (fun i => i.Address)).toFinset.card := by
  obtain ⟨h1, h2⟩ := foldl_drainStep_keys total results DrainState.init
    (by simp [DrainState.init])
  have hlen : (drain total results).errorsMap.length =
      ((drain total results).errorsMap.map Prod.fst).length := by simp
  unfold drain at hlen ⊢
  rw [hlen, ← List.toFinset_card_of_nodup h1, h2]
  simp [DrainState.init]

/-- C2, as stated, fails: the directory lists `https://down.example` twice and
both probes time out. The two failures share one error-map entry, so the
buckets (all empty), the outcomes discarded without failure (none) and the
error-map entries (one) add up to 1, not to the 2 candidates. -/
theorem error_map_entries_counterexample :
    ([checkInstance id (netFailing "context deadline exceeded") instDown,
      checkInstance id (netFailing "context deadline exceeded") instDown].map
        (fun r => r.inst)) = [instDown, instDown] ∧
    (processConcurrently [instDown, instDown]
      [checkInstance id (netFailing "context deadline exceeded") instDown,
       checkInstance id (netFailing "context deadline exceeded") instDown]).2
      = [("https://down.example", "context deadline exceeded")] ∧
    (processConcurrently [instDown, instDown]
      [checkInstance id (netFailing "context deadline exceeded") instDown,
       checkInstance id (netFailing "context deadline exceeded") instDown]).1.Reliable.length +
    (processConcurrently [instDown, instDown]
      [checkInstance id (netFailing "context deadline exceeded") instDown,
       checkInstance id (netFailing "context deadline exceeded") instDown]).1.LowUptime.length +
    (processConcurrently [instDown, instDown]
      [checkInstance id (netFailing "context deadline exceeded") instDown,
       checkInstance id (netFailing "context deadline exceeded") instDown]).1.Unreliable.length +
    (routedTo "discard"
      [checkInstance id (netFailing "context deadline exceeded") instDown,
       checkInstance id (netFailing "context deadline exceeded") instDown]).length +
    (processConcurrently [instDown, instDown]
      [checkInstance id (netFailing "context deadline exceeded") instDown,
       checkInstance id (netFailing "context deadline exceeded") instDown]).2.length
      ≠ [instDown, instDown].length := by
  refine ⟨rfl, rfl, ?_⟩
  decide

/-- C2, amended: when the collecting loop receives one outcome of `checkInstance`
per candidate (in any order, duplicates of an address allowed), the three
buckets, the instances discarded without failure and the instances of the failed
outcomes together are a rearrangement of the candidate list, each bucket holding
exactly the outcomes of its category, so the five counts add up to the number of
candidates. The error map has one entry per distinct failed address: its size
never exceeds the number of failed outcomes and equals it when the failed
addresses are pairwise distinct. -/
theorem outcomes_partition_candidates (list : List Instance) (results : List checkResult)
    (hperm : (results.map (fun r => r.inst)).Perm list)
    (hfrom : ∀ r ∈ results, ∃ (caseTable : Char → Char) (net : Net InstancePage),
      r = checkInstance caseTable net r.inst) :
    ((processConcurrently list results).1.all ++ routedTo "discard" results ++
      failedInstances results).Perm list ∧
    (processConcurrently list results).1.Reliable = routedTo "reliable" results ∧
    (processConcurrently list results).1.LowUptime = routedTo "low_uptime" results ∧
    (processConcurrently list results).1.Unreliable = routedTo "unreliable" results ∧
    (processConcurrently list results).1.Reliable.length +
      (processConcurrently list results).1.LowUptime.length +
      (processConcurrently list results).1.Unreliable.length +
      (routedTo "discard" results).length + (failedInstances results).length = list.length ∧
    (processConcurrently list results).2.length =
      ((failedInstances results).map (fun i => i.Address)).toFinset.card ∧
    (processConcurrently list results).2.length ≤ (failedInstances results).length ∧
    (((failedInstances results).map (fun i => i.Address)).Nodup →
      (processConcurrently list results).2.length = (failedInstances results).length) := by
  have hcat : ∀ r ∈ results, r.err = none →
      r.category ∈ ["reliable", "low_uptime", "unreliable", "discard"] := by
    intro r hr hnone
    obtain ⟨caseTable, net, hrc⟩ := hfrom r hr
    rw [hrc] at hnone ⊢
    exact checkInstance_category_of_no_err caseTable net r.inst hnone
  have hfinal := foldl_drainStep_final list.length results DrainState.init
  have hR : (processConcurrently list results).1.Reliable = routedTo "reliable" results := by
    show (results.foldl (drainStep list.length) DrainState.init).final.Reliable = _
    rw [hfinal]
    rfl
  have hL : (processConcurrently list results).1.LowUptime = routedTo "low_uptime" results := by
    show (results.foldl (drainStep list.length) DrainState.init).final.LowUptime = _
    rw [hfinal]
    rfl
  have hU : (processConcurrently list results).1.Unreliable =
      routedTo "unreliable" results := by
    show (results.foldl (drainStep list.length) DrainState.init).final.Unreliable = _
    rw [hfinal]
    rfl
  have hpart : ((processConcurrently list results).1.all ++ routedTo "discard" results ++
      failedInstances results).Perm list := by
    unfold FinalResult.all
    rw [hR, hL, hU]
    exact (routed_failed_perm results hcat).trans hperm
  have hlen : (processConcurrently list results).2.length =
      ((failedInstances results).map (fun i => i.Address)).toFinset.card :=
    drain_errorsMap_length list.length results
  refine ⟨hpart, hR, hL, hU, ?_, hlen, ?_, fun hnd => ?_⟩
  · have := hpart.length_eq
    simp only [FinalResult.all, List.length_append] at this
    exact this
  · rw [hlen]
    exact (List.toFinset_card_le _).trans (by simp)
  · rw [hlen, List.toFinset_card_of_nodup hnd]
    simp

/-- Witness for the amended C2: three candidates, two of them the same address
that is down; the results arrive in another order than the candidates. -/
theorem outcomes_partition_candidates_witness :
    ((processConcurrently [instTop, instDown, instDown]
        [checkInstance id (netFailing "context deadline exceeded") instDown,
         checkInstance id (netServing pageClean) instTop,
         checkInstance id (netFailing "context deadline exceeded") instDown]).1.all ++
      routedTo "discard"
        [checkInstance id (netFailing "context deadline exceeded") instDown,
         checkInstance id (netServing pageClean) instTop,
         checkInstance id (netFailing "context deadline exceeded") instDown] ++
      failedInstances
        [checkInstance id (netFailing "context deadline exceeded") instDown,
         checkInstance id (netServing pageClean) instTop,
         checkInstance id (netFailing "context deadline exceeded") instDown]).Perm
      [instTop, instDown, instDown] :=
  (outcomes_partition_candidates [instTop, instDown, instDown]
    [checkInstance id (netFailing "context deadline exceeded") instDown,
     checkInstance id (netServing pageClean) instTop,
     checkInstance id (netFailing "context deadline exceeded") instDown]
    (List.Perm.swap instTop instDown [instDown])
    (by
      intro r hr
      simp only [List.mem_cons, List.mem_singleton, List.not_mem_nil, or_false] at hr
      rcases hr with rfl | rfl | rfl
      · exact ⟨id, netFailing "context deadline exceeded", rfl⟩
      · exact ⟨id, netServing pageClean, rfl⟩
      · exact ⟨id, netFailing "context deadline exceeded", rfl⟩)).1

/-! ## `parseDirectory` -/

theorem rowEach_eq (parseFloat : String → Except GoError F64) (version : String)
    (instances : List Instance) (tr : TableRow) :
    rowEach parseFloat version instances tr =
      instances ++ (rowCandidate parseFloat (version, tr)).toList := by
  unfold rowEach rowCandidate uptimeArg
  by_cases hlen : tr.cells.length < 8
  · have h8 : ¬ 8 ≤ tr.cells.length := by omega
    simp [hlen, h8]
  · have h8 : 8 ≤ tr.cells.length := by omega
    simp only [hlen, h8, if_false, if_true]
    cases parseFloat (trimSpace (replaceAll (trimSpace (tr.cells.getD 7 "")) "%" "")) <;> simp

theorem foldl_rowEach (parseFloat : String → Except GoError F64) (version : String)
    (rows : List TableRow) (instances : List Instance) :
    rows.foldl (rowEach parseFloat version) instances =
      instances ++ (rows.map (fun tr => (version, tr))).filterMap (rowCandidate parseFloat) := by
  induction rows generalizing instances with
  | nil => simp
  | cons tr rest ih =>
    rw [List.foldl_cons, ih, rowEach_eq]
    cases h : rowCandidate parseFloat (version, tr) <;> simp [List.filterMap_cons, h]

theorem headingEach_eq (parseFloat : String → Except GoError F64)
    (instances : List Instance) (s : Heading) :
    headingEach parseFloat instances s =
      instances ++ (tableRows [s]).filterMap (rowCandidate parseFloat) := by
  obtain ⟨text, next⟩ := s
  unfold headingEach tableRows
  cases next with
  | none => simp
  | some el =>
    by_cases htag : el.tag = "table"
    · simp [htag, foldl_rowEach, versionOf, List.filterMap_map]
    · simp [htag]

theorem tableRows_cons (s : Heading) (doc : DirectoryPage) :
    tableRows (s :: doc) = tableRows [s] ++ tableRows doc := by
  simp [tableRows]

theorem tableRows_append (doc₁ doc₂ : DirectoryPage) :
    tableRows (doc₁ ++ doc₂) = tableRows doc₁ ++ tableRows doc₂ := by
  simp [tableRows]

theorem foldl_headingEach (parseFloat : String → Except GoError F64)
    (doc : DirectoryPage) (instances : List Instance) :
    doc.foldl (headingEach parseFloat) instances =
      instances ++ (tableRows doc).filterMap (rowCandidate parseFloat) := by
  induction doc generalizing instances with
  | nil => simp [tableRows]
  | cons s rest ih =>
    rw [List.foldl_cons, ih, headingEach_eq, tableRows_cons s rest, List.filterMap_append,
      List.append_assoc]

theorem parseDirectory_eq (parseFloat : String → Except GoError F64) (doc : DirectoryPage) :
    parseDirectory parseFloat doc = (tableRows doc).filterMap (rowCandidate parseFloat) := by
  unfold parseDirectory
  rw [foldl_headingEach]
  simp

/-! ## The uptime text -/

theorem replaceScan_percent (l : List Char) :
    replaceScan ['%'] [] 0 l = l.filter (fun c => c != '%') := by
  induction l with
  | nil => rfl
  | cons c rest ih =>
    by_cases hc : c = '%'
    · subst hc
      simp [replaceScan, ih]
    · have hc' : ¬ '%' = c := fun h => hc h.symm
      simp [replaceScan, ih, hc, hc', List.filter_cons]

theorem replaceAll_percent (s : String) :
    replaceAll s "%" "" = ⟨s.data.filter (fun c => c != '%')⟩ := by
  have hold : ("%" : String).data = ['%'] := rfl
  have hnew : ("" : String).data = [] := rfl
  unfold replaceAll
  rw [hold, hnew, if_neg (by simp), replaceScan_percent]

theorem uptimeArg_eq (cell : String) :
    uptimeArg cell =
      ⟨trimSpaceChars ((trimSpaceChars cell.data).filter (fun c => c != '%'))⟩ := by
  unfold uptimeArg
  rw [replaceAll_percent]
  rfl

theorem uptimeArg_eq_clean (cell : String) : uptimeArg cell = cleanUptimeText cell :=
  uptimeArg_eq cell

theorem numericCandidate_eq (parseFloat : String → Except GoError F64)
    (vr : String × TableRow) :
    numericCandidate parseFloat vr =
      (rowCandidate parseFloat vr).filter (fun i => decide (i.Uptime ≠ F64.nan)) := by
  unfold numericCandidate rowCandidate
  rw [uptimeArg_eq_clean]
  by_cases h8 : 8 ≤ vr.2.cells.length
  · simp only [h8, if_true]
    cases parseFloat (cleanUptimeText (vr.2.cells.getD 7 "")) with
    | error e => rfl
    | ok val =>
      by_cases hnan : val = F64.nan
      · simp [hnan, Option.filter]
      · simp [hnan, Option.filter]
  · simp [h8, Option.filter]

theorem numericCandidate_eq_of_not_nanRow (parseFloat : String → Except GoError F64)
    (vr : String × TableRow) (h : nanRow parseFloat vr.2 = false) :
    numericCandidate parseFloat vr = rowCandidate parseFloat vr := by
  unfold numericCandidate rowCandidate
  unfold nanRow at h
  rw [uptimeArg_eq_clean]
  by_cases h8 : 8 ≤ vr.2.cells.length
  · simp only [h8, if_true, decide_True, Bool.true_and] at h ⊢
    cases hp : parseFloat (cleanUptimeText (vr.2.cells.getD 7 "")) with
    | error e => rfl
    | ok val =>
      rw [hp] at h
      have hnan : ¬ val = F64.nan := by simpa using h
      simp [hnan]
  · simp [h8]

theorem rowCandidate_of_rejected (parseFloat : String → Except GoError F64)
    (version : String) (tr : TableRow) (h : rejectedRow parseFloat tr) :
    rowCandidate parseFloat (version, tr) = none := by
  unfold rowCandidate
  rw [uptimeArg_eq_clean]
  rcases h with hlen | ⟨e, he⟩
  · have h8 : ¬ 8 ≤ tr.cells.length := by omega
    simp [h8]
  · simp only [he]
    split_ifs <;> rfl

theorem rowCandidate_some (parseFloat : String → Except GoError F64)
    (vr : String × TableRow) (i : Instance) (h : rowCandidate parseFloat vr = some i) :
    8 ≤ vr.2.cells.length ∧
    parseFloat (cleanUptimeText (vr.2.cells.getD 7 "")) = .ok i.Uptime ∧
    i.Version = vr.1 ∧ i.Address = trimSpace (vr.2.cells.getD 0 "") := by
  unfold rowCandidate at h
  rw [uptimeArg_eq_clean] at h
  by_cases h8 : 8 ≤ vr.2.cells.length
  · simp only [h8, if_true] at h
    cases hp : parseFloat (cleanUptimeText (vr.2.cells.getD 7 "")) with
    | error e => rw [hp] at h; cases h
    | ok val =>
      rw [hp] at h
      simp only [Option.some.injEq] at h
      subst h
      exact ⟨h8, rfl, rfl, rfl⟩
  · simp [h8] at h

/-- C8, as stated, fails on a table with row A and a row whose uptime cell reads
`9%9`: stripped of surrounding white space and of a trailing `%` that text is
still `9%9`, which is no number, so the claim allows the candidate of row A
only; `parseDirectory` returns a second candidate, for the `9%9` row, with
uptime 99. -/
theorem inner_percent_row_counterexample :
    (tableRows directoryInnerPercent).filterMap (specRowCandidate sampleParseFloat) =
      [instA] ∧
    parseDirectory sampleParseFloat directoryInnerPercent =
      [instA, { Version := "1.7.6", Address := "https://odd.example", Uptime := F64.fin 99 }] ∧
    parseDirectory sampleParseFloat directoryInnerPercent ≠
      (tableRows directoryInnerPercent).filterMap (specRowCandidate sampleParseFloat) := by
  have h1 : (tableRows directoryInnerPercent).filterMap (specRowCandidate sampleParseFloat) =
      [instA] := rfl
  have h2 : parseDirectory sampleParseFloat directoryInnerPercent =
      [instA, { Version := "1.7.6", Address := "https://odd.example", Uptime := F64.fin 99 }] :=
    rfl
  refine ⟨h1, h2, ?_⟩
  rw [h1, h2]
  intro h
  have := congrArg List.length h
  simp at this

/-- C8, amended: among the rows of the tables that immediately follow a
heading, `parseDirectory` returns, in document order and without removing
duplicates, exactly one candidate for each row that has at least 8 cells and
whose column-7 text, with its surrounding white space and every `%` removed,
is parsed into a number, and every candidate it returns comes from a row of at
least 8 cells that the parser accepted. A row with fewer than 8 cells, or whose
cleaned uptime text the parser rejects, yields no candidate and leaves the
candidates of the other rows as they are, and a heading that is not followed
by a table contributes nothing. Rows whose text the parser turns into NaN are
left out of the statement. -/
theorem parseDirectory_numeric_candidates (parseFloat : String → Except GoError F64)
    (doc : DirectoryPage) :
    (parseDirectory parseFloat doc).filter (fun i => decide (i.Uptime ≠ F64.nan)) =
      (tableRows doc).filterMap (numericCandidate parseFloat) ∧
    ((∀ vr ∈ tableRows doc, nanRow parseFloat vr.2 = false) →
      parseDirectory parseFloat doc = (tableRows doc).filterMap (numericCandidate parseFloat)) ∧
    (∀ i ∈ parseDirectory parseFloat doc, ∃ vr ∈ tableRows doc,
      8 ≤ vr.2.cells.length ∧
      parseFloat (cleanUptimeText (vr.2.cells.getD 7 "")) = .ok i.Uptime ∧
      i.Version = vr.1 ∧ i.Address = trimSpace (vr.2.cells.getD 0 "")) ∧
    (∀ (pre post : DirectoryPage) (text : String) (rows₁ rows₂ : List TableRow)
      (tr : TableRow), rejectedRow parseFloat tr →
      parseDirectory parseFloat
          (pre ++ { text := text, next := some { tag := "table", rows := rows₁ ++ tr :: rows₂ } }
            :: post) =
        parseDirectory parseFloat
          (pre ++ { text := text, next := some { tag := "table", rows := rows₁ ++ rows₂ } }
            :: post)) ∧
    (∀ (pre post : DirectoryPage) (s : Heading),
      (∀ el, s.next = some el → el.tag ≠ "table") →
      parseDirectory parseFloat (pre ++ s :: post) = parseDirectory parseFloat (pre ++ post)) := by
  refine ⟨?_, ?_, ?_, ?_, ?_⟩
  · rw [parseDirectory_eq, List.filter_filterMap]
    apply List.filterMap_congr
    intro vr _
    exact (numericCandidate_eq parseFloat vr).symm
  · intro hno
    rw [parseDirectory_eq]
    apply List.filterMap_congr
    intro vr hvr
    exact (numericCandidate_eq_of_not_nanRow parseFloat vr (hno vr hvr)).symm
  · intro i hi
    rw [parseDirectory_eq, List.mem_filterMap] at hi
    obtain ⟨vr, hvr, hc⟩ := hi
    exact ⟨vr, hvr, rowCandidate_some parseFloat vr i hc⟩
  · intro pre post text rows₁ rows₂ tr hrej
    rw [parseDirectory_eq, parseDirectory_eq, tableRows_append, tableRows_append,
      tableRows_cons, tableRows_cons _ post]
    have hone : ∀ rows : List TableRow,
        tableRows [{ text := text, next := some { tag := "table", rows := rows } }] =
          rows.map (fun r => (trimPrefix (trimSpace text) "Version ", r)) := by
      intro rows
      simp [tableRows, versionOf]
    rw [hone, hone]
    simp only [List.map_append, List.map_cons, List.filterMap_append, List.filterMap_cons]
    rw [rowCandidate_of_rejected parseFloat _ tr hrej]
  · intro pre post s hs
    rw [parseDirectory_eq, parseDirectory_eq, tableRows_append, tableRows_append,
      tableRows_cons]
    have hnil : tableRows [s] = [] := by
      obtain ⟨text, next⟩ := s
      cases next with
      | none => simp [tableRows]
      | some el =>
        have := hs el rfl
        simp [tableRows, this]
    rw [hnil, List.nil_append]

/-- Witness for the amended C8: a table with row A, a row of 5 cells, a row whose
uptime is `n/a`, row B and row A again, then a heading followed by a paragraph
and a heading followed by nothing: the candidates are A, B, A. -/
theorem parseDirectory_numeric_candidates_witness :
    (∀ vr ∈ tableRows directoryMixed, nanRow sampleParseFloat vr.2 = false) ∧
    parseDirectory sampleParseFloat directoryMixed =
      (tableRows directoryMixed).filterMap (numericCandidate sampleParseFloat) ∧
    parseDirectory sampleParseFloat directoryMixed = [instA, instB, instA] :=
  ⟨by decide,
   (parseDirectory_numeric_candidates sampleParseFloat directoryMixed).2.1 (by decide),
   ((parseDirectory_numeric_candidates sampleParseFloat directoryMixed).2.1 (by decide)).trans
     rfl⟩

/-- C9, as stated, fails at the cell text `9%9`: the specification's string is
`9%9` itself (there is no trailing `%` to remove), which denotes no number, but
the program removes the inner `%` as well, hands `99` to the parser and lists
the row with uptime 99. -/
theorem inner_percent_counterexample :
    specUptimeText "9%9" = "9%9" ∧
    uptimeArg "9%9" = "99" ∧
    uptimeArg "9%9" ≠ specUptimeText "9%9" ∧
    parseDirectory sampleParseFloat directoryOdd =
      [{ Version := "1.7.6", Address := "https://odd.example", Uptime := F64.fin 99 }] :=
  ⟨by decide, by decide, by decide, rfl⟩

/-- C9, amended: the string handed to the float parser is the text of column 7
with its surrounding white space removed, every `%` removed wherever it stands,
and the surrounding white space removed once more; for a row of at least 8
cells the candidate's uptime is the value the parser returns for that string,
its address the trimmed text of column 0 and its version the label of the
heading. That string is the specification's (trim, then drop one trailing `%`)
whenever the trimmed cell text is a body without `%` and without surrounding
white space, followed by at most one `%`. -/
theorem uptime_text_cleaning (parseFloat : String → Except GoError F64)
    (text : String) (cells : List String) (h8 : 8 ≤ cells.length) :
    uptimeArg (cells.getD 7 "") =
      ⟨trimSpaceChars ((trimSpaceChars (cells.getD 7 "").data).filter (fun c => c != '%'))⟩ ∧
    parseDirectory parseFloat
        [{ text := text, next := some { tag := "table", rows := [{ cells := cells }] } }] =
      (match parseFloat (uptimeArg (cells.getD 7 "")) with
       | .ok val =>
         [{ Version := trimPrefix (trimSpace text) "Version ",
            Address := trimSpace (cells.getD 0 ""), Uptime := val }]
       | .error _ => []) ∧
    (∀ body suffix : List Char,
      trimSpaceChars (cells.getD 7 "").data = body ++ suffix →
      (suffix = [] ∨ suffix = ['%']) → '%' ∉ body → trimSpaceChars body = body →
      uptimeArg (cells.getD 7 "") = ⟨body⟩ ∧
      specUptimeText (cells.getD 7 "") = ⟨body⟩) := by
  refine ⟨uptimeArg_eq _, ?_, ?_⟩
  · rw [parseDirectory_eq]
    simp only [tableRows, List.flatMap_cons, List.flatMap_nil, List.append_nil, if_true,
      List.map_cons, List.map_nil, List.filterMap_cons, List.filterMap_nil, rowCandidate, h8,
      versionOf]
    cases parseFloat (uptimeArg (cells.getD 7 "")) <;> rfl
  · intro body suffix ht hsuf hbody htrim
    have hfilter : body.filter (fun c => c != '%') = body := by
      rw [List.filter_eq_self]
      intro c hc
      have : c ≠ '%' := fun h => hbody (h ▸ hc)
      simpa using this
    constructor
    · rw [uptimeArg_eq, ht, List.filter_append, hfilter]
      rcases hsuf with rfl | rfl
      · simp [htrim]
      · simp [htrim]
    · unfold specUptimeText
      simp only [ht]
      rcases hsuf with rfl | rfl
      · have hlast : ¬ (body ++ []).getLast? = some '%' := by
          rw [List.append_nil]
          intro h
          exact hbody (List.mem_of_getLast?_eq_some h)
        rw [if_neg hlast, List.append_nil]
      · have hlast : (body ++ ['%']).getLast? = some '%' := by simp
        rw [if_pos hlast, List.dropLast_concat]

/-- Witness for the amended C9: the cell text ` 99.50% `. -/
theorem uptime_text_cleaning_witness :
    uptimeArg " 99.50% " = "99.50" ∧ specUptimeText " 99.50% " = "99.50" :=
  (uptime_text_cleaning sampleParseFloat "Version 1.7.6"
    (rowOf "https://a.example" " 99.50% ").cells (by decide)).2.2
    "99.50".data ['%'] (by decide) (Or.inr rfl) (by decide) (by decide)

/-! ## Uptime of the reported instances -/

theorem F64.ge_of_not_lt (x y : F64) (hx : x ≠ F64.nan) (hy : y ≠ F64.nan)
    (h : F64.lt x y = false) : F64.ge x y = true := by
  cases x <;> cases y <;> simp_all [F64.ge, F64.lt]

/-- C10 at the failing input: a directory row whose uptime cell reads `NaN` is
accepted as a candidate with the NaN uptime; its page has a `never` option and
no alert, `checkInstance` answers `reliable` because `NaN < 99.0` is false, and
the candidate is listed in `Reliable` although `NaN >= 99.0` is false as well.
For every other candidate the buckets are as documented: `low_uptime` is only
returned for an uptime < 99, and `reliable` for an uptime that is >= 99 or
NaN. -/
theorem nan_uptime_listed_reliable :
    parseDirectory sampleParseFloat directoryNaN = [instNaN] ∧
    checkInstance id (netServing pageClean) instNaN =
      { inst := instNaN, category := "reliable", err := none } ∧
    (processConcurrently [instNaN] [checkInstance id (netServing pageClean) instNaN]).1 =
      { Reliable := [instNaN], LowUptime := [], Unreliable := [] } ∧
    F64.ge instNaN.Uptime goodUptime = false ∧
    (∀ (caseTable : Char → Char) (net : Net InstancePage) (inst : Instance),
      (checkInstance caseTable net inst).category = "low_uptime" →
      F64.lt inst.Uptime goodUptime = true) ∧
    (∀ (caseTable : Char → Char) (net : Net InstancePage) (inst : Instance),
      (checkInstance caseTable net inst).category = "reliable" →
      F64.ge inst.Uptime goodUptime = true ∨ inst.Uptime = F64.nan) := by
  refine ⟨rfl, rfl, rfl, rfl, ?_, ?_⟩
  · intro caseTable net inst hcat
    cases hfetch : fetchPage net inst.Address with
    | error e =>
      rw [checkInstance_of_error caseTable net inst e hfetch] at hcat
      simp at hcat
    | ok doc =>
      rw [checkInstance_of_ok caseTable net inst doc hfetch] at hcat
      by_cases hlt : F64.lt inst.Uptime goodUptime = true
      · exact hlt
      · split_ifs at hcat <;> simp at hcat
  · intro caseTable net inst hcat
    cases hfetch : fetchPage net inst.Address with
    | error e =>
      rw [checkInstance_of_error caseTable net inst e hfetch] at hcat
      simp at hcat
    | ok doc =>
      rw [checkInstance_of_ok caseTable net inst doc hfetch] at hcat
      by_cases hnan : inst.Uptime = F64.nan
      · exact Or.inr hnan
      · left
        by_cases hlt : F64.lt inst.Uptime goodUptime = true
        · split_ifs at hcat <;> simp at hcat
        · exact F64.ge_of_not_lt _ _ hnan (by simp [goodUptime]) (by simpa using hlt)

end PrivateBin
